import Mathlib

/-
  Verification of the rustling-ontology grammar facade (src/src/lib.rs) and
  the Korean rule catalogue (src/rules/src/ko.rs).

  The repository sources contain the facade and the rule productions; the
  rustling engine, the `helpers` module and the value types live in sibling
  crates that are not part of this repository snapshot.  Those are modelled
  from the specification, and every such definition carries a doc comment
  starting with `Modelled from the spec:`.  Definitions without that marker
  are direct shallow embeddings of the source.
-/

namespace RustlingOntology

/- ### Core value model (spec section 3) -/

/-- Modelled from the spec: precision metadata, Exact or Approximate. -/
inductive Precision where
  | exact
  | approximate
deriving DecidableEq, Repr

/-- Modelled from the spec: the canonical calendar grain enumeration. -/
inductive Grain where
  | second
  | minute
  | hour
  | day
  | week
  | month
  | quarter
  | year
deriving DecidableEq, Repr

/-- Modelled from the spec: direction marker Before/After. -/
inductive Direction where
  | before
  | after
deriving DecidableEq, Repr

/-- Modelled from the spec: Integer number value with precision and the
write-once prefixed/suffixed affix flags (`rustling_ontology_values`,
outside src/). -/
structure IntegerValue where
  value : Int
  precision : Precision
  prefixed : Bool
  suffixed : Bool
deriving DecidableEq, Repr

/-- Modelled from the spec: `IntegerValue::new` builds an exact, unaffixed
integer. -/
def IntegerValue.new (v : Int) : IntegerValue :=
  { value := v, precision := Precision.exact, prefixed := false, suffixed := false }

/-- Modelled from the spec: Float number value.  The source uses a 32-bit
float; the claims under verification concern the variant tag and the exact
arithmetic of the operations, so the numeric payload is modelled by `ℚ`
(f32 rounding is out of scope). -/
structure FloatValue where
  value : ℚ
  precision : Precision
  prefixed : Bool
  suffixed : Bool
deriving DecidableEq, Repr

/-- Modelled from the spec: `FloatValue::new` builds an exact, unaffixed
float. -/
def FloatValue.new (v : ℚ) : FloatValue :=
  { value := v, precision := Precision.exact, prefixed := false, suffixed := false }

/-- Modelled from the spec: `NumberValue` is Integer or Float. -/
inductive NumberValue where
  | integer (v : IntegerValue)
  | float (v : FloatValue)
deriving DecidableEq, Repr

/-- Modelled from the spec: `NumberValue::prefixed()`. -/
def NumberValue.prefixed : NumberValue → Bool
  | NumberValue.integer i => i.prefixed
  | NumberValue.float f => f.prefixed

/-- Modelled from the spec: `NumberValue::suffixed()`. -/
def NumberValue.suffixed : NumberValue → Bool
  | NumberValue.integer i => i.suffixed
  | NumberValue.float f => f.suffixed

/-- Modelled from the spec: `NumberValue::value()` as a rational (the source
widens both variants to a float). -/
def NumberValue.value : NumberValue → ℚ
  | NumberValue.integer i => (i.value : ℚ)
  | NumberValue.float f => f.value

/-- Modelled from the spec: ordinal value (1-based position). -/
structure OrdinalValue where
  value : Int
deriving DecidableEq, Repr

/-- Modelled from the spec: a Duration is a mapping grain to signed count,
with precision.  The mapping is carried as an association list. -/
structure DurationValue where
  period : List (Grain × Int)
  precision : Precision
deriving DecidableEq, Repr

/-- Modelled from the spec: the periodic-series descriptor of a Time value.
The helper constructors of `rustling_ontology_values::helpers` are outside
src/; each is modelled as recording its arguments in this descriptor. -/
inductive TimePattern where
  | empty
  | cycleNth (g : Grain) (n : Int)
  | hourOfDay (h : Int) (is12Clock : Bool)
  | hourMinute (h : Int) (m : Int) (is12Clock : Bool)
  | hourRelativeMinute (h : Int) (m : Int) (is12Clock : Bool)
  | monthOfYear (m : Int)
  | dayOfMonth (d : Int)
  | secondOfMinute (s : Int)
  | inPresent (d : DurationValue)
  | spanTo (a : TimePattern) (b : TimePattern) (inclusive : Bool)
deriving DecidableEq, Repr

/-- Modelled from the spec: the Form classifier inside a Time value. -/
inductive Form where
  | empty
  | dayOfWeek (w : Nat)
  | month (m : Int)
  | timeOfDay (fullHour : Option Int)
  | partOfDay
deriving DecidableEq, Repr

/-- Modelled from the spec: a Time value with form, grain, latency,
precision and direction metadata. -/
structure TimeValue where
  pattern : TimePattern
  form : Form
  grain : Grain
  latent : Bool
  precision : Precision
  direction : Option Direction
deriving DecidableEq, Repr

/-- Modelled from the spec: `.latent()` marks a time value latent (the field
`latent` keeps the source name, so the method is named `toLatent`). -/
def TimeValue.toLatent (t : TimeValue) : TimeValue :=
  { t with latent := true }

/-- Modelled from the spec: `.not_latent()` clears the latency flag. -/
def TimeValue.not_latent (t : TimeValue) : TimeValue :=
  { t with latent := false }

/-- Modelled from the spec: `.precision(p)` metadata update (named
`setPrecision` because `precision` is the field). -/
def TimeValue.setPrecision (t : TimeValue) (p : Precision) : TimeValue :=
  { t with precision := p }

/-- Modelled from the spec: `.direction(d)` metadata update. -/
def TimeValue.setDirection (t : TimeValue) (d : Option Direction) : TimeValue :=
  { t with direction := d }

/-- Modelled from the spec: `.form(f)` metadata update. -/
def TimeValue.setForm (t : TimeValue) (f : Form) : TimeValue :=
  { t with form := f }

/-- Index of a grain, finer grains first. -/
def grainIdx : Grain → Nat
  | Grain.second => 0
  | Grain.minute => 1
  | Grain.hour => 2
  | Grain.day => 3
  | Grain.week => 4
  | Grain.month => 5
  | Grain.quarter => 6
  | Grain.year => 7

/-- Modelled from the spec: the finer of two grains. -/
def finerGrain (a b : Grain) : Grain :=
  if grainIdx a ≤ grainIdx b then a else b

namespace helpers

/-- Modelled from the spec: `helpers::cycle_nth(grain, n)` addresses the
n-th window of the given grain from the reference instant. -/
def cycle_nth (g : Grain) (n : Int) : TimeValue :=
  { pattern := TimePattern.cycleNth g n, form := Form.empty, grain := g,
    latent := false, precision := Precision.exact, direction := none }

/-- Modelled from the spec: `helpers::month(m)` builds a Month-form time
value at month grain. -/
def month (m : Int) : TimeValue :=
  { pattern := TimePattern.monthOfYear m, form := Form.month m, grain := Grain.month,
    latent := false, precision := Precision.exact, direction := none }

/-- Modelled from the spec: `helpers::day_of_month(d)` builds a
day-of-month time value at day grain. -/
def day_of_month (d : Int) : TimeValue :=
  { pattern := TimePattern.dayOfMonth d, form := Form.empty, grain := Grain.day,
    latent := false, precision := Precision.exact, direction := none }

/-- Modelled from the spec: `helpers::hour(h, is_12_clock)` builds a
TimeOfDay-form time value carrying the full hour. -/
def hour (h : Int) (is12Clock : Bool) : TimeValue :=
  { pattern := TimePattern.hourOfDay h is12Clock, form := Form.timeOfDay (some h),
    grain := Grain.hour, latent := false, precision := Precision.exact, direction := none }

/-- Modelled from the spec: `helpers::hour_minute(h, m, is_12_clock)`. -/
def hour_minute (h m : Int) (is12Clock : Bool) : TimeValue :=
  { pattern := TimePattern.hourMinute h m is12Clock, form := Form.timeOfDay none,
    grain := Grain.minute, latent := false, precision := Precision.exact, direction := none }

/-- Modelled from the spec: `helpers::hour_relative_minute(h, m, is_12_clock)`
forms the composition hour plus m relative minutes. -/
def hour_relative_minute (h m : Int) (is12Clock : Bool) : TimeValue :=
  { pattern := TimePattern.hourRelativeMinute h m is12Clock, form := Form.timeOfDay none,
    grain := Grain.minute, latent := false, precision := Precision.exact, direction := none }

/-- Modelled from the spec: `helpers::second(s)` builds a second-of-minute
time value. -/
def second (s : Int) : TimeValue :=
  { pattern := TimePattern.secondOfMinute s, form := Form.empty, grain := Grain.second,
    latent := false, precision := Precision.exact, direction := none }

end helpers

/-- The finest grain occurring in a duration period, defaulting to Second. -/
def durationFinestGrain (d : DurationValue) : Grain :=
  d.period.foldl (fun g p => if grainIdx p.1 < grainIdx g then p.1 else g) Grain.year

/-- Modelled from the spec: `DurationValue::in_present()` takes the duration
from the reference instant. -/
def DurationValue.in_present (d : DurationValue) : TimeValue :=
  { pattern := TimePattern.inPresent d, form := Form.empty, grain := durationFinestGrain d,
    latent := false, precision := d.precision, direction := none }

/-- Modelled from the spec: `span_to(a, b, inclusive)` returns a Time whose
form is Empty and whose grain is the finer of the two endpoints. -/
def TimeValue.span_to (a b : TimeValue) (inclusive : Bool) : TimeValue :=
  { pattern := TimePattern.spanTo a.pattern b.pattern inclusive, form := Form.empty,
    grain := finerGrain a.grain b.grain, latent := false,
    precision := Precision.exact, direction := none }

/- ### Dimension and outputs (spec sections 3 and 4.4) -/

/-- Modelled from the spec: the tagged union of all value kinds. -/
inductive Dimension where
  | number (v : NumberValue)
  | ordinal (v : OrdinalValue)
  | time (t : TimeValue)
  | duration (d : DurationValue)
  | cycle (g : Grain)
  | unitOfDuration (g : Grain)
  | relativeMinute (m : Int)
deriving DecidableEq, Repr

/-- Modelled from the spec: the externally visible output values. -/
inductive Output where
  | integerOutput (v : Int)
  | floatOutput (v : ℚ)
  | ordinalOutput (v : Int)
  | durationOutput (d : DurationValue)
  | timeOutput (t : TimeValue)
deriving DecidableEq, Repr

/-- Modelled from the spec: the parsing context carrying the reference
instant (abstracted to an integer timestamp). -/
structure ParsingContext where
  referenceInstant : Int
deriving DecidableEq, Repr

/-- Modelled from the spec: `ParsingContext::resolve` turns a Dimension into
an Output, or None when resolution is impossible; latent values resolve to
None at the top level, and kinds with no Output variant (RelativeMinute,
Cycle, UnitOfDuration) also resolve to None. -/
def ParsingContext.resolve (_ctx : ParsingContext) (d : Dimension) : Option Output :=
  match d with
  | Dimension.number (NumberValue.integer i) => some (Output.integerOutput i.value)
  | Dimension.number (NumberValue.float f) => some (Output.floatOutput f.value)
  | Dimension.ordinal o => some (Output.ordinalOutput o.value)
  | Dimension.duration dv => some (Output.durationOutput dv)
  | Dimension.time t => if t.latent then none else some (Output.timeOutput t)
  | Dimension.cycle _ => none
  | Dimension.unitOfDuration _ => none
  | Dimension.relativeMinute _ => none

/-- Whether a dimension is a latent time value (a purely latent top-level
value in the sense of the spec). -/
def dimensionLatent : Dimension → Bool
  | Dimension.time t => t.latent
  | _ => false

/- ### Facade (src/src/lib.rs) -/

/-- A parser match, as in `rustling::ParserMatch` re-exported by lib.rs. -/
structure ParserMatch (α : Type) where
  value : α
  byte_range : Nat × Nat
  char_range : Nat × Nat
  probalog : ℚ
  latent : Bool
deriving DecidableEq, Repr

/-- Modelled from the spec: the raw rustling parser is a pure function of
the input text and the remove_overlap flag; a `RawParser` value fixes the
rule set and the trained model. -/
structure RawParser where
  run : List Char → Bool → List (ParserMatch Dimension)

/-- `Parser`, the facade wrapper around the raw parser (lib.rs line 49). -/
structure Parser where
  raw : RawParser

/-- `Parser::translate_values` (lib.rs lines 52-72): resolve every match
against the context, keep the matches that resolve, and carry the ranges,
score and latency over unchanged. -/
def Parser.translate_values (context : ParsingContext)
    (input : List (ParserMatch Dimension)) : List (ParserMatch Output) :=
  input.filterMap (fun pm =>
    (context.resolve pm.value).map (fun o =>
      { value := o, byte_range := pm.byte_range, char_range := pm.char_range,
        probalog := pm.probalog, latent := pm.latent }))

/-- `Parser::parse` (lib.rs lines 83-89): run the raw parser, then translate
the values under the context. -/
def Parser.parse (p : Parser) (input : List Char) (context : ParsingContext)
    (remove_overlap : Bool) : List (ParserMatch Output) :=
  Parser.translate_values context (p.raw.run input remove_overlap)

/- ### Korean number rules (src/rules/src/ko.rs, rules_numbers) -/

/-- The numeric value of an ASCII digit character. -/
def charToDigit (c : Char) : Nat := c.toNat - 48

/-- Parsing a run of decimal digit characters, as `str::parse::<i64>` does on
the capture of the integer (numeric) rule. -/
def parseDecimal (s : List Char) : Nat :=
  s.foldl (fun acc c => 10 * acc + charToDigit c) 0

/-- The rule integer (numeric), ko.rs lines 888-893: the regex `(\d{1,18})`
matches a run of one to eighteen ASCII digits, and the production parses the
captured text into an exact Integer. -/
def integerNumeric (s : List Char) : Option IntegerValue :=
  if 1 ≤ s.length ∧ s.length ≤ 18 ∧ s.all Char.isDigit then
    some (IntegerValue.new (parseDecimal s : Int))
  else none

/-- The ASCII digit character of a digit value. -/
def digitChar (d : Nat) : Char := Char.ofNat (48 + d)

/-- The decimal representation of a natural number, most significant digit
first, with 0 written as the single digit 0. -/
def decimalRepr (n : Nat) : List Char :=
  if n = 0 then ['0'] else ((Nat.digits 10 n).map digitChar).reverse

/-- Modelled from the spec: on an input that the integer (numeric) rule
matches in full, the parser returns that rule's single derivation spanning
the whole input, translated under the context (lib.rs lines 52-89; the
chart parser and ranker live outside src/). -/
def parseDecimalInput (context : ParsingContext) (s : List Char) :
    List (ParserMatch Output) :=
  match integerNumeric s with
  | some iv => Parser.translate_values context
      [{ value := Dimension.number (NumberValue.integer iv),
         byte_range := (0, s.length), char_range := (0, s.length),
         probalog := 0, latent := false }]
  | none => []

/-- The rule half - 반, ko.rs lines 907-910: `FloatValue::new(0.5)`. -/
def halfNumber : NumberValue := NumberValue.float (FloatValue.new (1 / 2))

/-- The rule numbers prefix with -, 마이너스, or 마이나스, ko.rs lines
1085-1108: the number child must not already be prefixed; the production
negates the value once and sets the prefixed flag. -/
def numbersMinusAffix (a : NumberValue) : Option NumberValue :=
  if a.prefixed then none
  else some (match a with
    | NumberValue.integer i =>
        NumberValue.integer { i with value := i.value * -1, prefixed := true }
    | NumberValue.float f =>
        NumberValue.float { f with value := f.value * -1, prefixed := true })

/-- The first rule fraction, ko.rs lines 1114-1119 (a 분의 b): the left
child must not be prefixed, the right child must not be suffixed, and the
production is `FloatValue::new(b / a)`. -/
def fractionBunui (a b : NumberValue) : Option NumberValue :=
  if a.prefixed = false ∧ b.suffixed = false then
    some (NumberValue.float (FloatValue.new (b.value / a.value)))
  else none

/-- The second rule fraction, ko.rs lines 1120-1125 (a / b): same checks,
production `FloatValue::new(a / b)`. -/
def fractionSlash (a b : NumberValue) : Option NumberValue :=
  if a.prefixed = false ∧ b.suffixed = false then
    some (NumberValue.float (FloatValue.new (a.value / b.value)))
  else none

/- ### Korean time rules (src/rules/src/ko.rs, rule_time) -/

/-- The rule month, ko.rs lines 62-66: `integer_check!(1, 12)` then
`helpers::month`. -/
def monthRule (n : Int) : Option TimeValue :=
  if 1 ≤ n ∧ n ≤ 12 then some (helpers.month n) else none

/-- The rule day, ko.rs lines 67-71: `integer_check!(1, 31)` then
`helpers::day_of_month`. -/
def dayRule (n : Int) : Option TimeValue :=
  if 1 ≤ n ∧ n ≤ 31 then some (helpers.day_of_month n) else none

/-- The rule time-of-day (latent), ko.rs lines 271-274:
`integer_check!(0, 23)` then `helpers::hour(n, true).latent()`. -/
def timeOfDayLatentRule (n : Int) : Option TimeValue :=
  if 0 ≤ n ∧ n ≤ 23 then some (helpers.hour n true).toLatent else none

/-- The rule time-of-day, ko.rs lines 275-279 (with the 시 suffix):
`integer_check!(0, 24)` then `helpers::hour(n, true)`. -/
def timeOfDaySiRule (n : Int) : Option TimeValue :=
  if 0 ≤ n ∧ n ≤ 24 then some (helpers.hour n true) else none

/-- The rule number (as relative minutes), ko.rs lines 336-340:
`integer_check!(1, 59)` then `RelativeMinuteValue(n)`. -/
def numberAsRelativeMinutes (n : Int) : Option Int :=
  if 1 ≤ n ∧ n ≤ 59 then some n else none

/-- The rule `<hour-of-day> <integer>`, ko.rs lines 350-359: a TimeOfDay
with an explicit full hour plus `integer_check!(0, 59)`, producing
`helpers::hour_minute(full_hour, n, true)`. -/
def hourOfDayIntegerMinutes (tod : TimeValue) (n : Int) : Option TimeValue :=
  match tod.form with
  | Form.timeOfDay (some h) =>
      if 0 ≤ n ∧ n ≤ 59 then some (helpers.hour_minute h n true) else none
  | _ => none

/-- The rule seconds, ko.rs lines 370-374: `integer_check!(1, 59)` then
`helpers::second`. -/
def secondsRule (n : Int) : Option TimeValue :=
  if 1 ≤ n ∧ n ≤ 59 then some (helpers.second n) else none

/-- The rule half (relative minutes), ko.rs lines 332-335:
`RelativeMinuteValue(30)`. -/
def halfRelativeMinutes : Int := 30

/-- The rule `<hour-of-day> <integer>` (as relative minutes), ko.rs lines
341-349: a TimeOfDay with an explicit full hour plus a relative-minute
child, producing `helpers::hour_relative_minute(full_hour, m, true)`. -/
def hourOfDayRelativeMinutes (tod : TimeValue) (rm : Int) : Option TimeValue :=
  match tod.form with
  | Form.timeOfDay (some h) => some (helpers.hour_relative_minute h rm true)
  | _ => none

/-- The rule `<time-of-day>`에, ko.rs lines 280-284: a TimeOfDay child (which
may be latent) followed by 에, producing the child made non-latent. -/
def timeOfDayEh (t : TimeValue) : Option TimeValue :=
  match t.form with
  | Form.timeOfDay _ => some t.not_latent
  | _ => none

/-- The rule exactly `<time-of-day>`, ko.rs lines 581-585 (a TimeOfDay
followed by 정각): the child made non-latent with precision set to
Approximate. -/
def exactlyTimeOfDay (t : TimeValue) : Option TimeValue :=
  match t.form with
  | Form.timeOfDay _ => some ((t.not_latent).setPrecision Precision.approximate)
  | _ => none

/-- The rule exactly `<duration>`, ko.rs lines 764-768: precision set to
Exact. -/
def exactlyDuration (d : DurationValue) : DurationValue :=
  { d with precision := Precision.exact }

/-- The first rule within `<duration>`, ko.rs lines 598-603 (trigger 이내에):
the span from the present second to the duration taken in the present. -/
def withinDurationInae (d : DurationValue) : TimeValue :=
  (helpers.cycle_nth Grain.second 0).span_to d.in_present false

/-- The second rule within `<duration>`, ko.rs lines 605-610 (trigger
안에/내에): the span from the present second to the duration taken in the
present. -/
def withinDurationAne (d : DurationValue) : TimeValue :=
  (helpers.cycle_nth Grain.second 0).span_to d.in_present false

/- ### Time algebra: intersection (spec sections 3 and 4.2; the operation
   lives in `rustling_ontology_values`, outside src/) -/

/-- Modelled from the spec: the calendar dimensions a partial time
description can address. -/
inductive CalDim where
  | year
  | month
  | dayOfMonth
  | dayOfWeek
  | timeOfDay
  | partOfDay
deriving DecidableEq, Repr

/-- All calendar dimensions. -/
def allCalDims : List CalDim :=
  [CalDim.year, CalDim.month, CalDim.dayOfMonth, CalDim.dayOfWeek,
   CalDim.timeOfDay, CalDim.partOfDay]

/-- Whether two constraint maps address disjoint calendar dimensions. -/
def disjointDims (f g : CalDim → Bool) : Bool :=
  allCalDims.all (fun d => !(f d && g d))

/-- Modelled from the spec: a Time value viewed as a periodic set of
calendar intervals at a given grain, with the calendar dimensions it
constrains and its membership predicate over instants. -/
structure PeriodicTime where
  grain : Grain
  form : Form
  constrains : CalDim → Bool
  member : Int → Bool

/-- Modelled from the spec: the result form is inherited from the more
specific child; when both carry specific forms it is Empty. -/
def inheritForm (a b : Form) : Form :=
  if a = Form.empty then b else if b = Form.empty then a else Form.empty

/-- Modelled from the spec: `intersect(a, b)` is set intersection of the
periodic sets, defined when a and b address disjoint calendar dimensions;
the result grain is the finer of the two, the form follows the inheritance
rule, and the result constrains the union of the dimensions. -/
def PeriodicTime.intersect (a b : PeriodicTime) : Option PeriodicTime :=
  if disjointDims a.constrains b.constrains then
    some { grain := finerGrain a.grain b.grain,
           form := inheritForm a.form b.form,
           constrains := fun d => a.constrains d || b.constrains d,
           member := fun t => a.member t && b.member t }
  else none

/- ### Supporting lemmas -/

theorem charToDigit_digitChar (d : Nat) (hd : d < 10) :
    charToDigit (digitChar d) = d := by
  interval_cases d <;> decide

theorem isDigit_digitChar (d : Nat) (hd : d < 10) :
    (digitChar d).isDigit = true := by
  interval_cases d <;> decide

theorem parseDecimal_digitList (l : List Nat) (hl : ∀ d ∈ l, d < 10) :
    parseDecimal ((l.map digitChar).reverse) = Nat.ofDigits 10 l := by
  unfold parseDecimal
  rw [List.foldl_reverse, List.foldr_map]
  induction l with
  | nil => simp [Nat.ofDigits]
  | cons d t ih =>
    have hd : d < 10 := hl d (List.mem_cons_self d t)
    have ht : ∀ x ∈ t, x < 10 := fun x hx => hl x (List.mem_cons_of_mem d hx)
    rw [List.foldr_cons, ih ht, charToDigit_digitChar d hd, Nat.ofDigits_cons]
    omega

theorem parseDecimal_decimalRepr (n : Nat) :
    parseDecimal (decimalRepr n) = n := by
  unfold decimalRepr
  by_cases h0 : n = 0
  · subst h0; decide
  · rw [if_neg h0,
      parseDecimal_digitList (Nat.digits 10 n)
        (fun d hd => Nat.digits_lt_base (by omega) hd),
      Nat.ofDigits_digits]

theorem decimalRepr_length_le (n : Nat) (h : n < 10 ^ 18) :
    (decimalRepr n).length ≤ 18 := by
  unfold decimalRepr
  by_cases h0 : n = 0
  · rw [if_pos h0]; decide
  · rw [if_neg h0, List.length_reverse, List.length_map,
      Nat.digits_len 10 n (by omega) h0]
    have := Nat.log_lt_of_lt_pow h0 h
    omega

theorem decimalRepr_length_pos (n : Nat) : 1 ≤ (decimalRepr n).length := by
  unfold decimalRepr
  by_cases h0 : n = 0
  · rw [if_pos h0]; decide
  · rw [if_neg h0, List.length_reverse, List.length_map]
    have hne := (Nat.digits_ne_nil_iff_ne_zero (b := 10)).mpr h0
    have := List.length_pos.mpr hne
    omega

theorem decimalRepr_all_digits (n : Nat) :
    (decimalRepr n).all Char.isDigit = true := by
  unfold decimalRepr
  by_cases h0 : n = 0
  · rw [if_pos h0]; decide
  · rw [if_neg h0, List.all_eq_true]
    intro c hc
    rw [List.mem_reverse] at hc
    obtain ⟨d, hd, rfl⟩ := List.mem_map.mp hc
    exact isDigit_digitChar d (Nat.digits_lt_base (by omega) hd)

/- ### Claim theorems -/

/-- C1: for every integer N in 0..10^18, parsing the decimal representation
of N through the integer (numeric) rule and the facade's value translation
returns IntegerOutput(N) as a single integer match spanning the input. -/
theorem claim1_integer_roundtrip (context : ParsingContext) (N : Nat)
    (h : N < 10 ^ 18) :
    parseDecimalInput context (decimalRepr N) =
      [{ value := Output.integerOutput (N : Int),
         byte_range := (0, (decimalRepr N).length),
         char_range := (0, (decimalRepr N).length),
         probalog := 0, latent := false }] := by
  unfold parseDecimalInput integerNumeric
  rw [if_pos ⟨decimalRepr_length_pos N, decimalRepr_length_le N h,
      decimalRepr_all_digits N⟩]
  unfold Parser.translate_values
  simp [ParsingContext.resolve, IntegerValue.new, parseDecimal_decimalRepr]

theorem claim1_integer_roundtrip_witness :
    1521082 < 10 ^ 18 ∧
    parseDecimalInput { referenceInstant := 0 } (decimalRepr 1521082) =
      [{ value := Output.integerOutput ((1521082 : Nat) : Int),
         byte_range := (0, (decimalRepr 1521082).length),
         char_range := (0, (decimalRepr 1521082).length),
         probalog := 0, latent := false }] :=
  ⟨by decide, claim1_integer_roundtrip { referenceInstant := 0 } 1521082 (by decide)⟩

/-- C2: an integer child yields a month derivation exactly when it lies in
1..12, a day-of-month exactly when in 1..31, an hour exactly when in 0..23
(latent rule) or 0..24 (with the 시 suffix), a relative minute or second
exactly when in 1..59, and a minute of an explicit hour exactly when in
0..59; every value outside the range is rejected with no derivation. -/
theorem claim2_range_checks :
    (∀ n : Int, (monthRule n).isSome ↔ 1 ≤ n ∧ n ≤ 12) ∧
    (∀ n : Int, (dayRule n).isSome ↔ 1 ≤ n ∧ n ≤ 31) ∧
    (∀ n : Int, (timeOfDayLatentRule n).isSome ↔ 0 ≤ n ∧ n ≤ 23) ∧
    (∀ n : Int, (timeOfDaySiRule n).isSome ↔ 0 ≤ n ∧ n ≤ 24) ∧
    (∀ n : Int, (numberAsRelativeMinutes n).isSome ↔ 1 ≤ n ∧ n ≤ 59) ∧
    (∀ (tod : TimeValue) (n : Int), (hourOfDayIntegerMinutes tod n).isSome ↔
        (∃ h, tod.form = Form.timeOfDay (some h)) ∧ 0 ≤ n ∧ n ≤ 59) ∧
    (∀ n : Int, (secondsRule n).isSome ↔ 1 ≤ n ∧ n ≤ 59) := by
  refine ⟨?_, ?_, ?_, ?_, ?_, ?_, ?_⟩
  · intro n; unfold monthRule; split <;> simp_all
  · intro n; unfold dayRule; split <;> simp_all
  · intro n; unfold timeOfDayLatentRule; split <;> simp_all
  · intro n; unfold timeOfDaySiRule; split <;> simp_all
  · intro n; unfold numberAsRelativeMinutes; split <;> simp_all
  · intro tod n
    unfold hourOfDayIntegerMinutes
    cases hform : tod.form with
    | empty => simp
    | dayOfWeek w => simp
    | month m => simp
    | partOfDay => simp
    | timeOfDay o =>
      cases o with
      | none => simp
      | some h =>
        by_cases hb : 0 ≤ n ∧ n ≤ 59
        · simp [hb]
        · simp [hb]
  · intro n; unfold secondsRule; split <;> simp_all

/-- C3: at the top level, a latent value resolves to None and is dropped by
`translate_values`, so every returned match stems from a non-latent input
match; yet a latent TimeOfDay consumed by the non-latent-producing rule
`<time-of-day>`에 still contributes a returned match. -/
theorem claim3_latency_gate :
    (∀ (context : ParsingContext) (input : List (ParserMatch Dimension))
        (pmo : ParserMatch Output),
        pmo ∈ Parser.translate_values context input →
        ∃ pmi, pmi ∈ input ∧ context.resolve pmi.value = some pmo.value ∧
          dimensionLatent pmi.value = false) ∧
    (∀ (context : ParsingContext) (pm : ParserMatch Dimension),
        dimensionLatent pm.value = true →
        Parser.translate_values context [pm] = []) ∧
    (∀ t : TimeValue, t.latent = true → (∃ o, t.form = Form.timeOfDay o) →
        ∃ u, timeOfDayEh t = some u ∧ u.latent = false ∧
          ∀ (context : ParsingContext) (br cr : Nat × Nat) (p : ℚ) (l : Bool),
            (Parser.translate_values context
              [{ value := Dimension.time u, byte_range := br, char_range := cr,
                 probalog := p, latent := l }]).length = 1) := by
  refine ⟨?_, ?_, ?_⟩
  · intro context input pmo hmem
    unfold Parser.translate_values at hmem
    rw [List.mem_filterMap] at hmem
    obtain ⟨pmi, hin, hmap⟩ := hmem
    rw [Option.map_eq_some'] at hmap
    obtain ⟨o, hres, hval⟩ := hmap
    refine ⟨pmi, hin, ?_, ?_⟩
    · rw [hres, ← hval]
    · cases hd : pmi.value <;> simp [dimensionLatent]
      case time t =>
        rw [hd] at hres
        by_cases hl : t.latent = true
        · simp [ParsingContext.resolve, hl] at hres
        · simpa using hl
  · intro context pm hl
    unfold Parser.translate_values
    cases hd : pm.value <;> simp [dimensionLatent, hd] at hl ⊢
    case time t =>
      simp [ParsingContext.resolve, hl]
  · intro t hl hform
    obtain ⟨o, ho⟩ := hform
    refine ⟨t.not_latent, ?_, rfl, ?_⟩
    · unfold timeOfDayEh
      rw [ho]
    · intro context br cr p l
      simp [Parser.translate_values, ParsingContext.resolve, TimeValue.not_latent]

theorem claim3_latency_gate_witness :
    (({ value := Output.integerOutput 7, byte_range := (0, 1), char_range := (0, 1),
        probalog := 0, latent := false } : ParserMatch Output) ∈
      Parser.translate_values { referenceInstant := 0 }
        [{ value := Dimension.number (NumberValue.integer (IntegerValue.new 7)),
           byte_range := (0, 1), char_range := (0, 1), probalog := 0, latent := false }] ∧
      ∃ pmi, pmi ∈
        [({ value := Dimension.number (NumberValue.integer (IntegerValue.new 7)),
            byte_range := (0, 1), char_range := (0, 1), probalog := 0,
            latent := false } : ParserMatch Dimension)] ∧
        ParsingContext.resolve { referenceInstant := 0 } pmi.value =
          some (Output.integerOutput 7) ∧
        dimensionLatent pmi.value = false) ∧
    Parser.translate_values { referenceInstant := 0 }
      [{ value := Dimension.time (helpers.hour 3 true).toLatent,
         byte_range := (0, 1), char_range := (0, 1), probalog := 0,
         latent := true }] = [] ∧
    (∃ u, timeOfDayEh (helpers.hour 3 true).toLatent = some u ∧ u.latent = false ∧
      (Parser.translate_values { referenceInstant := 0 }
        [{ value := Dimension.time u, byte_range := (0, 2), char_range := (0, 2),
           probalog := 0, latent := false }]).length = 1) := by
  have hmem : ({ value := Output.integerOutput 7,
                 byte_range := (0, 1),
                 char_range := (0, 1), probalog := 0,
                 latent := false } : ParserMatch Output) ∈
      Parser.translate_values { referenceInstant := 0 }
        [{ value := Dimension.number (NumberValue.integer (IntegerValue.new 7)),
           byte_range := (0, 1), char_range := (0, 1), probalog := 0,
           latent := false }] := by
    simp [Parser.translate_values, ParsingContext.resolve, IntegerValue.new]
  refine ⟨⟨hmem, ?_⟩, ?_, ?_⟩
  · obtain ⟨pmi, h1, h2, h3⟩ :=
      claim3_latency_gate.1 { referenceInstant := 0 } _ _ hmem
    exact ⟨pmi, h1, h2, h3⟩
  · exact claim3_latency_gate.2.1 { referenceInstant := 0 } _ rfl
  · obtain ⟨u, h1, h2, h3⟩ :=
      claim3_latency_gate.2.2 (helpers.hour 3 true).toLatent rfl ⟨some 3, rfl⟩
    exact ⟨u, h1, h2, h3 { referenceInstant := 0 } (0, 2) (0, 2) 0 false⟩

/-- C4: parsing is deterministic — for the same parser (rule set and model),
input, context (reference instant) and remove_overlap flag, any two parse
calls return identical results. -/
theorem claim4_parse_deterministic (p₁ p₂ : Parser) (input₁ input₂ : List Char)
    (c₁ c₂ : ParsingContext) (f₁ f₂ : Bool)
    (hp : p₁ = p₂) (hi : input₁ = input₂) (hc : c₁ = c₂) (hf : f₁ = f₂) :
    p₁.parse input₁ c₁ f₁ = p₂.parse input₂ c₂ f₂ := by
  subst hp hi hc hf
  rfl

theorem claim4_parse_deterministic_witness :
    Parser.parse { raw := { run := fun _ _ => [] } } ['a']
        { referenceInstant := 0 } true =
      Parser.parse { raw := { run := fun _ _ => [] } } ['a']
        { referenceInstant := 0 } true :=
  claim4_parse_deterministic _ _ _ _ _ _ _ _ rfl rfl rfl rfl

theorem notAndSymm (x y : Bool) : (!(x && y)) = (!(y && x)) := by
  cases x <;> cases y <;> rfl

theorem disjointDims_comm (f g : CalDim → Bool) :
    disjointDims f g = disjointDims g f := by
  simp only [disjointDims, allCalDims, List.all_cons, List.all_nil]
  rw [notAndSymm (f CalDim.year) (g CalDim.year),
    notAndSymm (f CalDim.month) (g CalDim.month),
    notAndSymm (f CalDim.dayOfMonth) (g CalDim.dayOfMonth),
    notAndSymm (f CalDim.dayOfWeek) (g CalDim.dayOfWeek),
    notAndSymm (f CalDim.timeOfDay) (g CalDim.timeOfDay),
    notAndSymm (f CalDim.partOfDay) (g CalDim.partOfDay)]

theorem finerGrain_comm (a b : Grain) : finerGrain a b = finerGrain b a := by
  cases a <;> cases b <;> rfl

theorem inheritForm_comm (a b : Form) : inheritForm a b = inheritForm b a := by
  unfold inheritForm
  by_cases ha : a = Form.empty <;> by_cases hb : b = Form.empty <;> simp [ha, hb]

/-- C5: intersection of periodic time sets is commutative — whenever it is
defined, intersect(a, b) and intersect(b, a) are structurally equal. -/
theorem claim5_intersect_comm (a b : PeriodicTime)
    (h : (PeriodicTime.intersect a b).isSome) :
    PeriodicTime.intersect a b = PeriodicTime.intersect b a := by
  unfold PeriodicTime.intersect
  rw [disjointDims_comm b.constrains a.constrains]
  by_cases hd : disjointDims a.constrains b.constrains = true
  · rw [if_pos hd, if_pos hd]
    refine congrArg some ?_
    simp only [PeriodicTime.mk.injEq]
    exact ⟨finerGrain_comm a.grain b.grain, inheritForm_comm a.form b.form,
      funext fun d => Bool.or_comm (a.constrains d) (b.constrains d),
      funext fun t => Bool.and_comm (a.member t) (b.member t)⟩
  · rw [if_neg hd, if_neg hd]

/-- A sample periodic time constraining only the month dimension. -/
def samplePTimeMonth : PeriodicTime :=
  { grain := Grain.month, form := Form.month 3,
    constrains := fun d => match d with
      | CalDim.month => true
      | _ => false,
    member := fun t => t % 2 == 0 }

/-- A sample periodic time constraining only the day-of-week dimension. -/
def samplePTimeDow : PeriodicTime :=
  { grain := Grain.day, form := Form.dayOfWeek 2,
    constrains := fun d => match d with
      | CalDim.dayOfWeek => true
      | _ => false,
    member := fun t => t % 7 == 2 }

theorem claim5_intersect_comm_witness :
    (PeriodicTime.intersect samplePTimeMonth samplePTimeDow).isSome = true ∧
    PeriodicTime.intersect samplePTimeMonth samplePTimeDow =
      PeriodicTime.intersect samplePTimeDow samplePTimeMonth :=
  ⟨rfl, claim5_intersect_comm samplePTimeMonth samplePTimeDow rfl⟩

/-- C6: the bare 반 number rule yields a Float of value one half (resolving
to FloatOutput 0.5), while 반 after a time-of-day with an explicit hour goes
through the relative-minute rules and yields that hour plus 30 relative
minutes. -/
theorem claim6_half (context : ParsingContext) (t : TimeValue) (h : Int)
    (hform : t.form = Form.timeOfDay (some h)) :
    (∃ f : FloatValue, halfNumber = NumberValue.float f ∧ f.value = 1 / 2) ∧
    context.resolve (Dimension.number halfNumber) =
      some (Output.floatOutput (1 / 2)) ∧
    halfRelativeMinutes = 30 ∧
    (∃ u, hourOfDayRelativeMinutes t halfRelativeMinutes = some u ∧
      u = helpers.hour_relative_minute h 30 true ∧
      u.pattern = TimePattern.hourRelativeMinute h 30 true) := by
  refine ⟨⟨FloatValue.new (1 / 2), rfl, rfl⟩, rfl, rfl, ?_⟩
  refine ⟨helpers.hour_relative_minute h 30 true, ?_, rfl, rfl⟩
  unfold hourOfDayRelativeMinutes
  rw [hform]
  rfl

theorem claim6_half_witness :
    (∃ f : FloatValue, halfNumber = NumberValue.float f ∧ f.value = 1 / 2) ∧
    ParsingContext.resolve { referenceInstant := 0 }
      (Dimension.number halfNumber) = some (Output.floatOutput (1 / 2)) ∧
    halfRelativeMinutes = 30 ∧
    (∃ u, hourOfDayRelativeMinutes (helpers.hour 5 true) halfRelativeMinutes =
        some u ∧
      u = helpers.hour_relative_minute 5 30 true ∧
      u.pattern = TimePattern.hourRelativeMinute 5 30 true) :=
  claim6_half { referenceInstant := 0 } (helpers.hour 5 true) 5 rfl

/-- C7: whenever the fraction rules fire (left child unprefixed, right child
unsuffixed), they produce a Float value holding the quotient, for any pair
of Integer or Float operands. -/
theorem claim7_fraction_float (a b : NumberValue)
    (ha : a.prefixed = false) (hb : b.suffixed = false) :
    (∃ f : FloatValue, fractionBunui a b = some (NumberValue.float f) ∧
      f.value = b.value / a.value) ∧
    (∃ f : FloatValue, fractionSlash a b = some (NumberValue.float f) ∧
      f.value = a.value / b.value) := by
  unfold fractionBunui fractionSlash
  rw [if_pos ⟨ha, hb⟩, if_pos ⟨ha, hb⟩]
  exact ⟨⟨FloatValue.new (b.value / a.value), rfl, rfl⟩,
    ⟨FloatValue.new (a.value / b.value), rfl, rfl⟩⟩

theorem claim7_fraction_float_witness :
    (∃ f : FloatValue,
      fractionBunui (NumberValue.integer (IntegerValue.new 4))
          (NumberValue.integer (IntegerValue.new 3)) =
        some (NumberValue.float f) ∧
      f.value = (NumberValue.integer (IntegerValue.new 3)).value /
        (NumberValue.integer (IntegerValue.new 4)).value) ∧
    (∃ f : FloatValue,
      fractionSlash (NumberValue.integer (IntegerValue.new 4))
          (NumberValue.integer (IntegerValue.new 3)) =
        some (NumberValue.float f) ∧
      f.value = (NumberValue.integer (IntegerValue.new 4)).value /
        (NumberValue.integer (IntegerValue.new 3)).value) :=
  claim7_fraction_float (NumberValue.integer (IntegerValue.new 4))
    (NumberValue.integer (IntegerValue.new 3)) rfl rfl

/-- C8: the negative-prefix rule fires only on a number whose prefixed flag
is false; the result has the value negated exactly once and prefixed set to
true, and the rule can never fire again on the result. -/
theorem claim8_minus_once (a r : NumberValue)
    (h : numbersMinusAffix a = some r) :
    a.prefixed = false ∧ r.prefixed = true ∧ r.value = -a.value ∧
    numbersMinusAffix r = none := by
  unfold numbersMinusAffix at h ⊢
  by_cases hp : a.prefixed = true
  · rw [if_pos hp] at h
    cases h
  · rw [if_neg hp] at h
    have ha : a.prefixed = false := by simpa using hp
    cases a with
    | integer i =>
      cases h
      refine ⟨ha, rfl, ?_, rfl⟩
      simp [NumberValue.value]
    | float f =>
      cases h
      refine ⟨ha, rfl, ?_, rfl⟩
      simp [NumberValue.value]

theorem claim8_minus_once_witness :
    (NumberValue.integer (IntegerValue.new 5)).prefixed = false ∧
    (NumberValue.integer
      { value := -5, precision := Precision.exact, prefixed := true,
        suffixed := false }).prefixed = true ∧
    (NumberValue.integer
      { value := -5, precision := Precision.exact, prefixed := true,
        suffixed := false }).value =
      -(NumberValue.integer (IntegerValue.new 5)).value ∧
    numbersMinusAffix (NumberValue.integer
      { value := -5, precision := Precision.exact, prefixed := true,
        suffixed := false }) = none :=
  claim8_minus_once (NumberValue.integer (IntegerValue.new 5))
    (NumberValue.integer
      { value := -5, precision := Precision.exact, prefixed := true,
        suffixed := false }) rfl

/-- C9: the two Korean rules both named within duration have extensionally
equal productions — for every duration child, both produce the span from
the present second to the duration taken in the present. -/
theorem claim9_within_duration_equal (d : DurationValue) :
    withinDurationInae d = withinDurationAne d ∧
    withinDurationInae d =
      (helpers.cycle_nth Grain.second 0).span_to d.in_present false :=
  ⟨rfl, rfl⟩

/-- C10: the rule exactly time-of-day returns the child made non-latent with
precision set to Approximate (not Exact), whereas the rule exactly duration
sets precision to Exact. -/
theorem claim10_exactly_precision (t u : TimeValue)
    (h : exactlyTimeOfDay t = some u) :
    u.precision = Precision.approximate ∧ u.precision ≠ Precision.exact ∧
    u.latent = false ∧ u.pattern = t.pattern ∧ u.form = t.form ∧
    (∀ d : DurationValue, (exactlyDuration d).precision = Precision.exact) := by
  unfold exactlyTimeOfDay at h
  cases hform : t.form <;> rw [hform] at h <;> cases h
  case timeOfDay o =>
    exact ⟨rfl, fun hc => Precision.noConfusion hc, rfl, rfl, hform, fun d => rfl⟩

theorem claim10_exactly_precision_witness :
    ((helpers.hour 5 true).not_latent.setPrecision
        Precision.approximate).precision = Precision.approximate ∧
    ((helpers.hour 5 true).not_latent.setPrecision
        Precision.approximate).precision ≠ Precision.exact ∧
    ((helpers.hour 5 true).not_latent.setPrecision
        Precision.approximate).latent = false ∧
    ((helpers.hour 5 true).not_latent.setPrecision
        Precision.approximate).pattern = (helpers.hour 5 true).pattern ∧
    ((helpers.hour 5 true).not_latent.setPrecision
        Precision.approximate).form = (helpers.hour 5 true).form ∧
    (∀ d : DurationValue, (exactlyDuration d).precision = Precision.exact) :=
  claim10_exactly_precision (helpers.hour 5 true)
    ((helpers.hour 5 true).not_latent.setPrecision Precision.approximate) rfl

end RustlingOntology
